import Mathlib

/-!
Shallow embedding of the totoon encoders and verification of the frozen
claims about them.

The repository converts generic value trees (parsed from JSON/YAML/XML)
into TOON text.  Four ports of the encoder are shipped; the claims touch
three of them, which are embedded here faithfully, one namespace each:

* `JsCore`  — src/js/src/core.ts (compact-CSV tabular layout);
* `GoPipe`  — src/go/totoon.go (pipe-table tabular layout);
* `GoCsv`   — src/unnamed/part_002 (Go port of the compact-CSV layout).

JavaScript strings and Go strings are modelled as lists of characters
(`Str`).  JavaScript objects and Go maps are modelled as association
lists `List (Str × Value)`.  For JavaScript this list order is the
insertion order of the keys: `Object.keys` returns string keys in
insertion order, so the model is exact.  For Go the source iterates maps
with `range`, whose order the Go specification leaves unspecified (and
the runtime randomizes); the association-list order of a `Value.obj`
passed to a `GoPipe`/`GoCsv` function therefore represents one realized
iteration order of that map, and any permutation of the same entries is
an equally legal realization of the same Go map.
-/

set_option maxHeartbeats 1600000

/-- Characters of an embedded JavaScript/Go string. -/
abbrev Str := List Char

/-- Shorthand turning a Lean string literal into the character-list model. -/
def str (s : String) : Str := s.data

/-- The generic value tree both the JS and the Go encoders walk: null,
booleans, numbers, strings, arrays and (ordered) objects.  Numbers are
modelled as integers; their rendering (`String(n)` in JS, `%v` in Go) is
decimal and is what `toString` gives for an `Int`.  No claim depends on
non-integer numeric formatting. -/
inductive Value where
  | nullV
  | boolV (b : Bool)
  | numV (n : Int)
  | strV (s : Str)
  | arr (items : List Value)
  | obj (fields : List (Str × Value))

/-- The model of `Array.prototype.join(sep)` / `strings.Join`: empty list
gives the empty string, and the separator stands between elements. -/
def joinWith (sep : Str) : List Str → Str
  | [] => []
  | [s] => s
  | s :: rest => s ++ sep ++ joinWith sep rest

/-- The model of `' '.repeat(n)` / `strings.Repeat(" ", n)`. -/
def spaces (n : Nat) : Str := List.replicate n ' '

/-- Property lookup in an object modelled as an association list; keys are
unique within an object, so the first match is the property. -/
def lookupKey : List (Str × Value) → Str → Option Value
  | [], _ => none
  | (k, v) :: rest, key => if k = key then some v else lookupKey rest key

/-- The check `typeof data[0] === 'object' && data[0] !== null &&
!Array.isArray(data[0])` of the JS ports, and `data[0].(map[string]interface{})`
of the Go ports: the list is non-empty and its first element is an object. -/
def firstIsObj : List Value → Bool
  | (.obj _) :: _ => true
  | _ => false

/-- A character-by-character string rewriting loop: the model of a chain of
single-character global `String.replace` calls (JS) and of the
`strings.Builder` loops of the Go ports. -/
def expandChars (f : Char → Str) : Str → Str
  | [] => []
  | c :: rest => f c ++ expandChars f rest

/-- Global replacement of the single character `c` by `r`, the model of
one `s.replace(/c/g, r)` call. -/
def repChar (c : Char) (r : Str) : Str → Str :=
  expandChars fun a => if a = c then r else [a]

/-- The keys of one element of a table, in stored order: `Object.keys(obj)`
for an object.  For a non-object element the JS sources would coerce
(`Object.keys(5)` is `[]`, which this model matches); string and null
elements, which JS would index or throw on, are outside every behaviour the
claims exercise and are modelled as contributing no keys, exactly like the
Go ports, which skip non-map elements explicitly. -/
def rowKeys : Value → List Str
  | .obj fields => fields.map Prod.fst
  | _ => []

/-- One step of the first-seen key collection: `allKeysDict[objKey] = true`
followed by `Object.keys` keeps the first-insertion order (JS), and the Go
ports append a key only if `!allKeysMap[k]`. -/
def insKey (acc : List Str) (k : Str) : List Str :=
  if k ∈ acc then acc else acc ++ [k]

/-- The column set of a table: the union of the keys of all elements in
first-seen order (src/js/src/core.ts lines 148-155, src/go/totoon.go lines
165-178, src/unnamed/part_002 lines 165-178 and 210-222). -/
def collectAllKeys (data : List Value) : List Str :=
  data.foldl (fun acc row => (rowKeys row).foldl insKey acc) []

/-- The JS cell access `obj[k] ?? ''`: a missing key and a null value both
coalesce to the empty string; a non-object row has no properties. -/
def jsGetQQ (row : Value) (key : Str) : Value :=
  match row with
  | .obj fields =>
    match lookupKey fields key with
    | some .nullV => .strV []
    | some v => v
    | none => .strV []
  | _ => .strV []

/-- The scalar-cell quoting shared by src/js/src/core.ts lines 232-242 and
src/unnamed/part_002 lines 269-279: a value not already wrapped in double
quotes is quoted when it contains a comma, newline, colon or semicolon,
with embedded double quotes escaped first. -/
def quoteCell (s : Str) : Str :=
  if s.head? = some '"' ∧ s.getLast? = some '"' then s
  else if s.contains ',' || s.contains '\n' || s.contains ':' || s.contains ';' then
    '"' :: (if s.contains '"' then repChar '"' [ '\\', '"' ] s else s) ++ [ '"' ]
  else s

/-! Size bounds used as termination measures of the mutual encoders. -/

theorem value_sizeOf_pos (v : Value) : 1 ≤ sizeOf v := by
  cases v <;> simp

theorem list_sizeOf_pos {α : Type} [SizeOf α] (l : List α) : 1 ≤ sizeOf l := by
  cases l <;> simp <;> omega

theorem sizeOf_mem {α : Type} [SizeOf α] {a : α} {l : List α} (h : a ∈ l) :
    sizeOf a + 2 ≤ sizeOf l := by
  induction l with
  | nil => simp at h
  | cons b rest ih =>
    rcases List.mem_cons.mp h with rfl | h2
    · have := list_sizeOf_pos rest
      simp; omega
    · have := ih h2; simp; omega

theorem pair_snd_sizeOf (p : Str × Value) : sizeOf p.2 < sizeOf p := by
  obtain ⟨a, b⟩ := p
  simp
  try omega

theorem lookupKey_sizeOf {fields : List (Str × Value)} {key : Str} {v : Value}
    (h : lookupKey fields key = some v) : sizeOf v < sizeOf fields := by
  induction fields with
  | nil => simp [lookupKey] at h
  | cons p rest ih =>
    obtain ⟨k, w⟩ := p
    rw [lookupKey] at h
    split at h
    · cases h; simp; omega
    · have := ih h; simp; omega

theorem jsGetQQ_sizeOf (row : Value) (key : Str) :
    sizeOf (jsGetQQ row key) ≤ sizeOf row + 1 := by
  cases row with
  | obj fields =>
    rw [jsGetQQ]
    rcases hl : lookupKey fields key with _ | v
    · simp
    · have h1 := lookupKey_sizeOf hl
      cases v <;> simp_all <;> omega
  | nullV => simp [jsGetQQ]
  | boolV b => simp [jsGetQQ]
  | numV n => simp [jsGetQQ]
  | strV s => simp [jsGetQQ]
  | arr l => simp [jsGetQQ]

namespace JsCore

/-- The must-quote test of `toToon`, src/js/src/core.ts line 40: the regular
expression test for newline, tab, colon, pipe or double quote. -/
def needTop (s : Str) : Bool :=
  s.any fun c => c == '\n' || c == '\t' || c == ':' || c == '|' || c == '"'

/-- The escape chain of `toToon`, src/js/src/core.ts lines 41-44: backslash,
then double quote, then newline, each replaced globally in turn. -/
def escTop (s : Str) : Str :=
  repChar '\n' [ '\\', 'n' ] (repChar '"' [ '\\', '"' ] (repChar '\\' [ '\\', '\\' ] s))

/-- The must-quote test of `valueToToon`, src/js/src/core.ts line 270: only
the control characters newline, tab and carriage return. -/
def needMin (s : Str) : Bool :=
  s.any fun c => c == '\n' || c == '\t' || c == '\r'

/-- The escape chain of `valueToToon`, src/js/src/core.ts lines 271-276:
backslash, double quote, newline, carriage return, tab, replaced globally
in turn. -/
def escMin (s : Str) : Str :=
  repChar '\t' [ '\\', 't' ] (repChar '\r' [ '\\', 'r' ]
    (repChar '\n' [ '\\', 'n' ] (repChar '"' [ '\\', '"' ] (repChar '\\' [ '\\', '\\' ] s))))

mutual

/-- src/js/src/core.ts `valueToToon` (lines 254-291). -/
def valueToToon (value : Value) (indent level : Nat) : Str :=
  match value with
  | .nullV => str "null"
  | .boolV b => if b then str "true" else str "false"
  | .numV n => str (toString n)
  | .strV s => if needMin s then '"' :: escMin s ++ [ '"' ] else s
  | .arr items => '\n' :: listToToon items indent level
  | .obj fields => '\n' :: dictToToon fields indent level
termination_by 8 * sizeOf value + 2
decreasing_by all_goals simp <;> omega

/-- src/js/src/core.ts `dictToToon` (lines 75-112): the per-key lines of
`dictLines` joined with newlines. -/
def dictToToon (fields : List (Str × Value)) (indent level : Nat) : Str :=
  if fields.length = 0 then str "{}"
  else joinWith [ '\n' ] (dictLines fields indent level)
termination_by 8 * sizeOf fields + 6
decreasing_by all_goals simp <;> omega

/-- The `for (const key of keys)` loop of `dictToToon`, src/js/src/core.ts
lines 84-109: a non-empty array whose first element is an object delegates
to the tabular encoder, other non-empty containers get a `key:` line and a
recursive block, and everything else (scalars and empty containers) is a
simple `key: value` line. -/
def dictLines (fields : List (Str × Value)) (indent level : Nat) : List Str :=
  match fields with
  | [] => []
  | (key, value) :: rest =>
    (match value with
     | .arr (i0 :: irest) =>
       if firstIsObj (i0 :: irest) then
         [listOfObjectsToToon key (i0 :: irest) indent level]
       else
         [spaces (indent * level) ++ key ++ str ":",
          listToToon (i0 :: irest) indent (level + 1)]
     | .obj (f0 :: frest) =>
       [spaces (indent * level) ++ key ++ str ":",
        dictToToon (f0 :: frest) indent (level + 1)]
     | v =>
       [spaces (indent * level) ++ key ++ str ": " ++ valueToToon v indent (level + 1)])
    ++ dictLines rest indent level
termination_by 8 * sizeOf fields + 5
decreasing_by all_goals simp <;> omega

/-- src/js/src/core.ts `listToToon` (lines 114-133). -/
def listToToon (data : List Value) (indent level : Nat) : Str :=
  if data.length = 0 then str "[]"
  else if firstIsObj data then listOfObjectsToToon [] data indent level
  else joinWith [ '\n' ] (listItems data indent level)
termination_by 8 * sizeOf data + 6
decreasing_by all_goals simp <;> omega

/-- The `for (const item of data)` loop of `listToToon`, src/js/src/core.ts
lines 127-130. -/
def listItems (data : List Value) (indent level : Nat) : List Str :=
  match data with
  | [] => []
  | item :: rest =>
    (spaces (indent * level) ++ str "- " ++ valueToToon item indent level)
      :: listItems rest indent level
termination_by 8 * sizeOf data + 3
decreasing_by all_goals simp <;> omega

/-- src/js/src/core.ts `listOfObjectsToToon` (lines 135-252), the compact-CSV
tabular encoder.  The guard of line 141 falls back to `listToToon`; under the
guard that call returns `"[]"` for an empty list and the itemized layout
otherwise, which is inlined here so that the recursion descends. -/
def listOfObjectsToToon (key : Str) (data : List Value) (indent level : Nat) : Str :=
  if data.length = 0 then str "[]"
  else if firstIsObj data then
    let allKeys := collectAllKeys data
    if allKeys.length = 0 then str "[]"
    else
      let header := spaces (indent * level) ++ key ++ str "[" ++ str (toString data.length)
        ++ str "]\x7b" ++ joinWith [ ',' ] allKeys ++ str "\x7d:"
      let rows := data.attach.map (fun x =>
        str "  " ++ joinWith [ ',' ] (allKeys.map (fun k => cellEncode (jsGetQQ x.1 k))))
      joinWith [ '\n' ] (header :: rows)
  else joinWith [ '\n' ] (listItems data indent level)
termination_by 8 * sizeOf data + 4
decreasing_by
  all_goals simp
  all_goals try omega
  all_goals
    have h1 := jsGetQQ_sizeOf x.1 k
    have h2 := sizeOf_mem x.2
    omega

/-- One table cell of `listOfObjectsToToon`, src/js/src/core.ts lines
176-245: a nested array of objects becomes an inline sub-table, a nested
array of primitives becomes a bracket list, a nested object becomes an
inline record, and a scalar is rendered by `valueToToon` and quoted by the
rule of lines 232-242 (`quoteCell`). -/
def cellEncode (value : Value) : Str :=
  match value with
  | .arr items =>
    if firstIsObj items then
      let nestedKeys := collectAllKeys items
      let nestedRows := items.attach.filterMap (fun x =>
        match hx : x.1 with
        | .obj nf => some (joinWith [ ',' ] (nestedKeys.map (fun nk =>
            let nvStr := valueToToon (jsGetQQ (.obj nf) nk) 0 0
            if nvStr.contains ',' || nvStr.contains ';' || nvStr.contains ':' then
              '"' :: nvStr ++ [ '"' ]
            else nvStr)))
        | _ => none)
      str "[" ++ str (toString items.length) ++ str "]\x7b" ++ joinWith [ ',' ] nestedKeys
        ++ str "\x7d:" ++ joinWith [ ';' ] nestedRows
    else
      str "[" ++ joinWith [ ',' ] (items.attach.map (fun x => valueToToon x.1 0 0)) ++ str "]"
  | .obj nfields =>
    let nestedItems := nfields.attach.map (fun x =>
      let nvStr := valueToToon x.1.2 0 0
      x.1.1 ++ str ":" ++
        (if nvStr.contains ',' || nvStr.contains ':' then '"' :: nvStr ++ [ '"' ] else nvStr))
    str "\x7b" ++ joinWith [ ',' ] nestedItems ++ str "\x7d"
  | v => quoteCell (valueToToon v 0 0)
termination_by 8 * sizeOf value + 7
decreasing_by
  all_goals simp
  all_goals try omega
  all_goals first
    | (have h1 := jsGetQQ_sizeOf (Value.obj nf) nk
       have h2 := sizeOf_mem x.2
       rw [hx] at h2
       try simp at h1 h2
       omega)
    | (have h2 := sizeOf_mem x.2
       try have h3 := pair_snd_sizeOf x.1
       try simp at h2
       try simp at h3
       omega)

end

/-- src/js/src/core.ts `toToon` (lines 25-60), the exported entry point. -/
def toToon (data : Value) (indent : Nat) : Str :=
  match data with
  | .nullV => str "null"
  | .boolV b => if b then str "true" else str "false"
  | .numV n => str (toString n)
  | .strV s => if needTop s then '"' :: escTop s ++ [ '"' ] else s
  | .arr items => listToToon items indent 0
  | .obj fields => dictToToon fields indent 0

/-- src/js/src/core.ts `fromToon` (lines 71-73): the thrown error is
modelled as `Except.error` carrying the message text. -/
def fromToon (toonStr : Str) : Except Str Value :=
  .error (str "TOON parsing is not yet implemented")

end JsCore

namespace GoPipe

/-- src/go/totoon.go `escapeString` (lines 260-293): quoting is triggered by
newline, tab, colon, pipe or double quote, and the builder loop escapes
backslash, double quote, newline and tab (a carriage return passes through
verbatim). -/
def escapeString (s : Str) : Str :=
  if s.any (fun c => c == '\n' || c == '\t' || c == ':' || c == '|' || c == '"') then
    '"' :: expandChars (fun c =>
      if c = '\\' then [ '\\', '\\' ]
      else if c = '"' then [ '\\', '"' ]
      else if c = '\n' then [ '\\', 'n' ]
      else if c = '\t' then [ '\\', 't' ]
      else [c]) s ++ [ '"' ]
  else s

mutual

/-- src/go/totoon.go `valueToToon` (lines 227-258). -/
def valueToToon (value : Value) (indent level : Nat) : Str :=
  match value with
  | .nullV => str "null"
  | .boolV b => if b then str "true" else str "false"
  | .numV n => str (toString n)
  | .strV s => escapeString s
  | .arr items => '\n' :: listToToon items indent level
  | .obj fields => '\n' :: dictToToon fields indent level
termination_by 8 * sizeOf value + 2
decreasing_by all_goals simp <;> omega

/-- src/go/totoon.go `dictToToon` (lines 71-127).  The `for key, value :=
range data` loop visits the entries in the realized map-iteration order the
association list stores. -/
def dictToToon (data : List (Str × Value)) (indent level : Nat) : Str :=
  if data.length = 0 then str "{}"
  else joinWith [ '\n' ] (dictLines data indent level)
termination_by 8 * sizeOf data + 6
decreasing_by all_goals simp <;> omega

/-- The range loop of `dictToToon`, src/go/totoon.go lines 79-124: a
non-empty slice whose first element is a map delegates to the tabular
encoder, other non-empty containers get a `key:` line and a recursive
block, and everything else is a simple `key: value` line. -/
def dictLines (data : List (Str × Value)) (indent level : Nat) : List Str :=
  match data with
  | [] => []
  | (key, value) :: rest =>
    (match value with
     | .arr (i0 :: irest) =>
       if firstIsObj (i0 :: irest) then
         [listOfObjectsToToon key (i0 :: irest) indent level]
       else
         [spaces (indent * level) ++ key ++ str ":",
          listToToon (i0 :: irest) indent (level + 1)]
     | .obj (f0 :: frest) =>
       [spaces (indent * level) ++ key ++ str ":",
        dictToToon (f0 :: frest) indent (level + 1)]
     | v =>
       [spaces (indent * level) ++ key ++ str ": " ++ valueToToon v indent (level + 1)])
    ++ dictLines rest indent level
termination_by 8 * sizeOf data + 5
decreasing_by all_goals simp <;> omega

/-- src/go/totoon.go `listToToon` (lines 129-150). -/
def listToToon (data : List Value) (indent level : Nat) : Str :=
  if data.length = 0 then str "[]"
  else if firstIsObj data then listOfObjectsToToon [] data indent level
  else joinWith [ '\n' ] (listItems data indent level)
termination_by 8 * sizeOf data + 6
decreasing_by all_goals simp <;> omega

/-- The item loop of `listToToon`, src/go/totoon.go lines 144-147. -/
def listItems (data : List Value) (indent level : Nat) : List Str :=
  match data with
  | [] => []
  | item :: rest =>
    (spaces (indent * level) ++ str "- " ++ valueToToon item indent level)
      :: listItems rest indent level
termination_by 8 * sizeOf data + 3
decreasing_by all_goals simp <;> omega

/-- src/go/totoon.go `listOfObjectsToToon` (lines 152-225), the pipe-table
encoder: a labeled table emits the `key:` line first and indents by one more
level; then come the ` | `-joined header, the `---` separator and one row
per map element (non-map elements are skipped by the `ok` guard of line
203).  A present cell is rendered by `valueToToon` and wrapped in quotes
when it contains a pipe or a newline; a missing key leaves the empty
string.  The guard of line 158 falls back to `listToToon`, inlined here as
the itemized layout it produces under the guard. -/
def listOfObjectsToToon (key : Str) (data : List Value) (indent level : Nat) : Str :=
  if data.length = 0 then str "[]"
  else if firstIsObj data then
    let allKeys := collectAllKeys data
    if allKeys.length = 0 then str "[]"
    else
      let pfx := if key.length = 0 then spaces (indent * level)
                 else spaces (indent * (level + 1))
      let lead := if key.length = 0 then ([] : List Str)
                  else [spaces (indent * level) ++ key ++ str ":"]
      let header := pfx ++ joinWith (str " | ") allKeys
      let sep := pfx ++ joinWith (str " | ") (allKeys.map (fun _ => str "---"))
      let rows := data.attach.filterMap (fun x =>
        match hx : x.1 with
        | .obj f => some (pfx ++ joinWith (str " | ") (allKeys.map (fun k =>
            match hl : lookupKey f k with
            | some v =>
              let s := valueToToon v 0 0
              if s.contains '|' || s.contains '\n' then '"' :: s ++ [ '"' ] else s
            | none => [])))
        | _ => none)
      joinWith [ '\n' ] (lead ++ header :: sep :: rows)
  else joinWith [ '\n' ] (listItems data indent level)
termination_by 8 * sizeOf data + 4
decreasing_by
  all_goals simp
  all_goals try omega
  all_goals
    have h1 := lookupKey_sizeOf hl
    have h2 := sizeOf_mem x.2
    rw [hx] at h2
    simp at h2
    omega

end

/-- src/go/totoon.go `toToon` (lines 31-69), the internal dispatcher. -/
def toToon (data : Value) (indent level : Nat) : Str :=
  match data with
  | .nullV => str "null"
  | .boolV b => if b then str "true" else str "false"
  | .numV n => str (toString n)
  | .strV s => escapeString s
  | .arr items => listToToon items indent level
  | .obj fields => dictToToon fields indent level

/-- src/go/totoon.go `ToToon` (lines 13-15), the exported entry point. -/
def ToToon (data : Value) : Str := toToon data 2 0

end GoPipe

namespace GoCsv

/-- src/unnamed/part_002 `escapeString` (lines 324-360): quoting is
triggered only by the control characters newline, tab and carriage return,
and the builder loop escapes backslash, double quote, newline, carriage
return and tab. -/
def escapeString (s : Str) : Str :=
  if s.any (fun c => c == '\n' || c == '\t' || c == '\r') then
    '"' :: expandChars (fun c =>
      if c = '\\' then [ '\\', '\\' ]
      else if c = '"' then [ '\\', '"' ]
      else if c = '\n' then [ '\\', 'n' ]
      else if c = '\r' then [ '\\', 'r' ]
      else if c = '\t' then [ '\\', 't' ]
      else [c]) s ++ [ '"' ]
  else s

mutual

/-- src/unnamed/part_002 `valueToToon` (lines 291-322). -/
def valueToToon (value : Value) (indent level : Nat) : Str :=
  match value with
  | .nullV => str "null"
  | .boolV b => if b then str "true" else str "false"
  | .numV n => str (toString n)
  | .strV s => escapeString s
  | .arr items => '\n' :: listToToon items indent level
  | .obj fields => '\n' :: dictToToon fields indent level
termination_by 8 * sizeOf value + 2
decreasing_by all_goals simp <;> omega

/-- src/unnamed/part_002 `dictToToon` (lines 71-127), identical in logic to
the pipe port's dictionary encoder; entries are visited in the realized
map-iteration order the association list stores. -/
def dictToToon (data : List (Str × Value)) (indent level : Nat) : Str :=
  if data.length = 0 then str "{}"
  else joinWith [ '\n' ] (dictLines data indent level)
termination_by 8 * sizeOf data + 6
decreasing_by all_goals simp <;> omega

/-- The range loop of `dictToToon`, src/unnamed/part_002 lines 79-124. -/
def dictLines (data : List (Str × Value)) (indent level : Nat) : List Str :=
  match data with
  | [] => []
  | (key, value) :: rest =>
    (match value with
     | .arr (i0 :: irest) =>
       if firstIsObj (i0 :: irest) then
         [listOfObjectsToToon key (i0 :: irest) indent level]
       else
         [spaces (indent * level) ++ key ++ str ":",
          listToToon (i0 :: irest) indent (level + 1)]
     | .obj (f0 :: frest) =>
       [spaces (indent * level) ++ key ++ str ":",
        dictToToon (f0 :: frest) indent (level + 1)]
     | v =>
       [spaces (indent * level) ++ key ++ str ": " ++ valueToToon v indent (level + 1)])
    ++ dictLines rest indent level
termination_by 8 * sizeOf data + 5
decreasing_by all_goals simp <;> omega

/-- src/unnamed/part_002 `listToToon` (lines 129-150). -/
def listToToon (data : List Value) (indent level : Nat) : Str :=
  if data.length = 0 then str "[]"
  else if firstIsObj data then listOfObjectsToToon [] data indent level
  else joinWith [ '\n' ] (listItems data indent level)
termination_by 8 * sizeOf data + 6
decreasing_by all_goals simp <;> omega

/-- The item loop of `listToToon`, src/unnamed/part_002 lines 144-147. -/
def listItems (data : List Value) (indent level : Nat) : List Str :=
  match data with
  | [] => []
  | item :: rest =>
    (spaces (indent * level) ++ str "- " ++ valueToToon item indent level)
      :: listItems rest indent level
termination_by 8 * sizeOf data + 3
decreasing_by all_goals simp <;> omega

/-- src/unnamed/part_002 `listOfObjectsToToon` (lines 152-289), the Go port
of the compact-CSV tabular encoder.  Non-map row elements are skipped by
the `ok` guard of line 196 (`continue`).  A cell is the empty string when
the key is missing (`value := ""`), and otherwise rendered by the switch of
lines 206-280 (`cellValue`).  The guard of line 153 and the first-element
check of line 158 fall back to `listToToon`, inlined as the layout it
produces under those guards. -/
def listOfObjectsToToon (key : Str) (data : List Value) (indent level : Nat) : Str :=
  if data.length = 0 then str "[]"
  else if firstIsObj data then
    let allKeys := collectAllKeys data
    if allKeys.length = 0 then str "[]"
    else
      let header := spaces (indent * level) ++ key ++ str "[" ++ str (toString data.length)
        ++ str "]\x7b" ++ joinWith [ ',' ] allKeys ++ str "\x7d:"
      let rows := data.attach.filterMap (fun x =>
        match hx : x.1 with
        | .obj f => some (str "  " ++ joinWith [ ',' ] (allKeys.map (fun k =>
            match hl : lookupKey f k with
            | some v => cellValue v
            | none => [])))
        | _ => none)
      joinWith [ '\n' ] (header :: rows)
  else joinWith [ '\n' ] (listItems data indent level)
termination_by 8 * sizeOf data + 4
decreasing_by
  all_goals simp
  all_goals try omega
  all_goals
    have h1 := lookupKey_sizeOf hl
    have h2 := sizeOf_mem x.2
    rw [hx] at h2
    simp at h2
    omega

/-- One present table cell of `listOfObjectsToToon`, src/unnamed/part_002
lines 206-280: a non-empty slice of maps becomes an inline sub-table (a
missing nested key leaves the empty string, a present nested value is
rendered by `valueToToon` and quoted on comma, semicolon or colon); a
non-empty slice of primitives becomes a bracket list; an empty slice is
`[]`; a map becomes an inline record; and everything else is rendered by
`valueToToon` and quoted by the rule of lines 269-279 (`quoteCell`). -/
def cellValue (v : Value) : Str :=
  match v with
  | .arr items =>
    if items.length = 0 then str "[]"
    else if firstIsObj items then
      let nestedKeys := collectAllKeys items
      let nestedRows := items.attach.filterMap (fun x =>
        match hx : x.1 with
        | .obj nf => some (joinWith [ ',' ] (nestedKeys.map (fun nk =>
            match hl : lookupKey nf nk with
            | some nvVal =>
              let nv := valueToToon nvVal 0 0
              if nv.contains ',' || nv.contains ';' || nv.contains ':' then
                '"' :: nv ++ [ '"' ]
              else nv
            | none => [])))
        | _ => none)
      str "[" ++ str (toString items.length) ++ str "]\x7b" ++ joinWith [ ',' ] nestedKeys
        ++ str "\x7d:" ++ joinWith [ ';' ] nestedRows
    else
      str "[" ++ joinWith [ ',' ] (items.attach.map (fun x => valueToToon x.1 0 0)) ++ str "]"
  | .obj nfields =>
    let nestedItems := nfields.attach.map (fun x =>
      let nvStr := valueToToon x.1.2 0 0
      x.1.1 ++ str ":" ++
        (if nvStr.contains ',' || nvStr.contains ':' then '"' :: nvStr ++ [ '"' ] else nvStr))
    str "\x7b" ++ joinWith [ ',' ] nestedItems ++ str "\x7d"
  | w => quoteCell (valueToToon w 0 0)
termination_by 8 * sizeOf v + 7
decreasing_by
  all_goals simp
  all_goals try omega
  all_goals first
    | (have h1 := lookupKey_sizeOf hl
       have h2 := sizeOf_mem x.2
       rw [hx] at h2
       try simp at h1
       try simp at h2
       omega)
    | (have h2 := sizeOf_mem x.2
       try have h3 := pair_snd_sizeOf x.1
       try simp at h2
       try simp at h3
       omega)

end

/-- src/unnamed/part_002 `toToon` (lines 31-69), the internal dispatcher. -/
def toToon (data : Value) (indent level : Nat) : Str :=
  match data with
  | .nullV => str "null"
  | .boolV b => if b then str "true" else str "false"
  | .numV n => str (toString n)
  | .strV s => escapeString s
  | .arr items => listToToon items indent level
  | .obj fields => dictToToon fields indent level

/-- src/unnamed/part_002 `ToToon` (lines 13-15), the exported entry point. -/
def ToToon (data : Value) : Str := toToon data 2 0

end GoCsv

/-- The column-set invariant as the spec words it: the keys of all elements
in order of first appearance, later duplicates dropped.  This definition
follows the spec's sentence and is compared with `collectAllKeys`, the
definition taken from the source. -/
def specFirstSeen : List Str → List Str
  | [] => []
  | k :: ks => k :: specFirstSeen (ks.filter (fun k2 => decide (k2 ≠ k)))
termination_by l => l.length
decreasing_by
  simp
  exact Nat.lt_succ_of_le (List.length_filter_le _ _)

/-- A value the JS dictionary encoder treats as simple (src/js/src/core.ts
lines 87-90 evaluating to false): anything but a non-empty array or a
non-empty object. -/
def simpleValue : Value → Bool
  | .arr (_ :: _) => false
  | .obj (_ :: _) => false
  | _ => true

/-- The no-trailing-newline property of claim C9: the last character of a
produced block is never a newline. -/
abbrev okStr (s : Str) : Prop := s.getLast? ≠ some '\n'

/-! ## Claim theorems -/

/-- C2: for every input string, including the empty one, the reverse decode
operation `fromToon` fails with the explicit not-implemented error; it never
returns a value and never attempts a partial parse. -/
theorem C2_fromToon_always_unimplemented :
    ∀ s : Str, JsCore.fromToon s = .error (str "TOON parsing is not yet implemented") :=
  fun _ => rfl

/-- C1 counterexample: the claim says a string with a colon but no control
character is emitted bare and unquoted at every call site including the
top-level entry point; on the code, `toToon "a:b"` is quoted. -/
theorem C1_counterexample :
    JsCore.toToon (.strV (str "a:b")) 2 = str "\"a:b\"" ∧
    JsCore.toToon (.strV (str "a:b")) 2 ≠ str "a:b" := by
  constructor
  · simp [JsCore.toToon, JsCore.needTop, JsCore.escTop, repChar, expandChars, str]
  · simp [JsCore.toToon, JsCore.needTop, JsCore.escTop, repChar, expandChars, str]

/-- C4 counterexample: the claim says an empty sequence as a mapping value
renders inline as `key: []` on one line; on the code the key line ends with
a trailing space and `[]` stands on the following line, because
`valueToToon` prefixes every container rendering with a newline. -/
theorem C4_counterexample :
    JsCore.toToon (.obj [(str "a", .arr [])]) 2 = str "a: \n[]" ∧
    JsCore.toToon (.obj [(str "a", .arr [])]) 2 ≠ str "a: []" := by
  constructor
  · simp [JsCore.toToon, JsCore.dictToToon, JsCore.dictLines, JsCore.valueToToon,
      JsCore.listToToon, joinWith, spaces, str]
  · simp [JsCore.toToon, JsCore.dictToToon, JsCore.dictLines, JsCore.valueToToon,
      JsCore.listToToon, joinWith, spaces, str]

/-- C4 as amended: a mapping key whose value is an empty sequence or an
empty mapping is treated as a simple value, but its `[]` / `{}` rendering is
preceded by a newline, so the output is the key line `key: ` (with a
trailing space) followed by `[]` or `{}` on the next, unindented line. -/
theorem C4_amended (k : Str) (indent level : Nat) :
    JsCore.dictToToon [(k, .arr [])] indent level
        = spaces (indent * level) ++ k ++ str ": \n[]" ∧
    JsCore.dictToToon [(k, .obj [])] indent level
        = spaces (indent * level) ++ k ++ str ": \n\x7b\x7d" := by
  constructor
  · simp [JsCore.dictToToon, JsCore.dictLines, JsCore.valueToToon, JsCore.listToToon,
      joinWith, str]
  · simp [JsCore.dictToToon, JsCore.dictLines, JsCore.valueToToon, joinWith, str]

/-- C5 counterexample: the claim says the tabular encoders shipped in the
repository are extensionally equal; the JS compact-CSV encoder and the Go
pipe-table encoder already disagree on the one-element table `[{a: "x"}]`. -/
theorem C5_counterexample :
    JsCore.toToon (.arr [.obj [(str "a", .strV (str "x"))]]) 2
      ≠ GoPipe.toToon (.arr [.obj [(str "a", .strV (str "x"))]]) 2 0 := by
  have h1 : JsCore.toToon (.arr [.obj [(str "a", .strV (str "x"))]]) 2
      = str "[1]\x7ba\x7d:\n  x" := by
    simp [JsCore.toToon, JsCore.listToToon, JsCore.listOfObjectsToToon, JsCore.cellEncode,
      JsCore.valueToToon, JsCore.needMin, quoteCell, jsGetQQ, lookupKey, collectAllKeys,
      rowKeys, insKey, firstIsObj, joinWith, spaces, str, List.attach, List.attachWith,
      List.pmap, List.foldl]
    try decide
  have h2 : GoPipe.toToon (.arr [.obj [(str "a", .strV (str "x"))]]) 2 0
      = str "a\n---\nx" := by
    simp [GoPipe.toToon, GoPipe.listToToon, GoPipe.listOfObjectsToToon, GoPipe.valueToToon,
      GoPipe.escapeString, lookupKey, collectAllKeys, rowKeys, insKey, firstIsObj,
      joinWith, spaces, str, List.attach, List.attachWith, List.pmap, List.foldl]
    try decide
  rw [h1, h2]
  try decide

/-- C5 as amended: the repository ships two divergent tabular layouts, not
one: src/js/src/core.ts (with src/unnamed/part_002) renders a sequence of
mappings as a compact-CSV block, while src/go/totoon.go (with
src/unnamed/part_000) renders the same tree as a pipe table, and the two
renderings differ; on the documented users example the compact-CSV output
is `users[2]{name,age}:` with comma rows while the pipe output is the
`name | age` table. -/
theorem C5_amended :
    JsCore.toToon (.obj [(str "users", .arr
        [.obj [(str "name", .strV (str "Alice")), (str "age", .numV 30)],
         .obj [(str "name", .strV (str "Bob")), (str "age", .numV 25)]])]) 2
      = str "users[2]\x7bname,age\x7d:\n  Alice,30\n  Bob,25" ∧
    GoPipe.ToToon (.obj [(str "users", .arr
        [.obj [(str "name", .strV (str "Alice")), (str "age", .numV 30)],
         .obj [(str "name", .strV (str "Bob")), (str "age", .numV 25)]])])
      = str "users:\n  name | age\n  --- | ---\n  Alice | 30\n  Bob | 25" ∧
    str "users[2]\x7bname,age\x7d:\n  Alice,30\n  Bob,25"
      ≠ str "users:\n  name | age\n  --- | ---\n  Alice | 30\n  Bob | 25" := by
  refine ⟨?_, ?_, by decide⟩
  · simp [JsCore.toToon, JsCore.dictToToon, JsCore.dictLines, JsCore.listOfObjectsToToon,
      JsCore.cellEncode, JsCore.valueToToon, JsCore.needMin, quoteCell, jsGetQQ, lookupKey,
      collectAllKeys, rowKeys, insKey, firstIsObj, joinWith, spaces, str, List.attach,
      List.attachWith, List.pmap, List.foldl]
    try decide
  · simp [GoPipe.ToToon, GoPipe.toToon, GoPipe.dictToToon, GoPipe.dictLines,
      GoPipe.listOfObjectsToToon, GoPipe.valueToToon, GoPipe.escapeString, lookupKey,
      collectAllKeys, rowKeys, insKey, firstIsObj, joinWith, spaces, str, List.attach,
      List.attachWith, List.pmap, List.foldl]
    try decide

/-- C6 counterexample: the claim says a mapping with keys inserted in order
b, a, c always yields output listing b, a, c; the Go port iterates its map
with `range`, whose order is unspecified, and the realized order a, b, c —
a permutation of the same three inserted keys, hence a legal iteration of
the same map — yields output listing a first. -/
theorem C6_counterexample :
    GoPipe.dictToToon [(str "a", .numV 2), (str "b", .numV 1), (str "c", .numV 3)] 2 0
        = str "a: 2\nb: 1\nc: 3" ∧
    List.Perm [str "a", str "b", str "c"] [str "b", str "a", str "c"] ∧
    str "a: 2\nb: 1\nc: 3" ≠ str "b: 1\na: 2\nc: 3" := by
  refine ⟨?_, List.Perm.swap (str "b") (str "a") [str "c"], by decide⟩
  simp [GoPipe.dictToToon, GoPipe.dictLines, GoPipe.valueToToon, joinWith, spaces, str]
  try decide

/-- C7 counterexample: the claim says two calls of encode on the same tree
return the identical string; two runs of the Go dictionary encoder over the
same two-entry map, realizing the two legal `range` orders, return
different strings. -/
theorem C7_counterexample :
    List.Perm [(str "x", Value.numV 1), (str "y", Value.numV 2)]
        [(str "y", Value.numV 2), (str "x", Value.numV 1)] ∧
    GoPipe.dictToToon [(str "x", .numV 1), (str "y", .numV 2)] 2 0
      ≠ GoPipe.dictToToon [(str "y", .numV 2), (str "x", .numV 1)] 2 0 := by
  refine ⟨List.Perm.swap (str "y", Value.numV 2) (str "x", Value.numV 1) [], ?_⟩
  have h1 : GoPipe.dictToToon [(str "x", .numV 1), (str "y", .numV 2)] 2 0
      = str "x: 1\ny: 2" := by
    simp [GoPipe.dictToToon, GoPipe.dictLines, GoPipe.valueToToon, joinWith, spaces, str]
    try decide
  have h2 : GoPipe.dictToToon [(str "y", .numV 2), (str "x", .numV 1)] 2 0
      = str "y: 2\nx: 1" := by
    simp [GoPipe.dictToToon, GoPipe.dictLines, GoPipe.valueToToon, joinWith, spaces, str]
    try decide
  rw [h1, h2]
  try decide

/-- C7 as amended: the JS encoder is a pure function of the tree and the
indent width, so repeated calls agree; the Go dictionary encoder is a pure
function only of the entries together with the realized map-iteration
order, and two runs over the same map may realize different orders and
return different strings. -/
theorem C7_amended :
    (∀ (v : Value) (i : Nat), JsCore.toToon v i = JsCore.toToon v i) ∧
    (∀ (f : List (Str × Value)) (i l : Nat),
        GoPipe.dictToToon f i l = GoPipe.dictToToon f i l) ∧
    (∃ f g : List (Str × Value), List.Perm f g ∧
        GoPipe.dictToToon f 2 0 ≠ GoPipe.dictToToon g 2 0) := by
  refine ⟨fun _ _ => rfl, fun _ _ _ => rfl,
    [(str "p", .numV 1), (str "q", .numV 2)], [(str "q", .numV 2), (str "p", .numV 1)],
    List.Perm.swap (str "q", Value.numV 2) (str "p", Value.numV 1) [], ?_⟩
  have h1 : GoPipe.dictToToon [(str "p", .numV 1), (str "q", .numV 2)] 2 0
      = str "p: 1\nq: 2" := by
    simp [GoPipe.dictToToon, GoPipe.dictLines, GoPipe.valueToToon, joinWith, spaces, str]
    try decide
  have h2 : GoPipe.dictToToon [(str "q", .numV 2), (str "p", .numV 1)] 2 0
      = str "q: 2\np: 1" := by
    simp [GoPipe.dictToToon, GoPipe.dictLines, GoPipe.valueToToon, joinWith, spaces, str]
    try decide
  rw [h1, h2]
  try decide

/-- C10 counterexample: the claim says a compact-CSV cell whose value is
null renders as the empty string exactly like a missing key; in the Go
compact-CSV port a present null cell renders as the text `null` while the
missing key renders empty, so the two are distinguishable. -/
theorem C10_counterexample :
    GoCsv.listOfObjectsToToon [] [.obj [(str "a", .numV 1)], .obj [(str "a", .nullV)]] 2 0
        = str "[2]\x7ba\x7d:\n  1\n  null" ∧
    GoCsv.listOfObjectsToToon [] [.obj [(str "a", .numV 1)], .obj []] 2 0
        = str "[2]\x7ba\x7d:\n  1\n  " ∧
    str "[2]\x7ba\x7d:\n  1\n  null" ≠ str "[2]\x7ba\x7d:\n  1\n  " := by
  refine ⟨?_, ?_, by decide⟩
  · simp [GoCsv.listOfObjectsToToon, GoCsv.cellValue, GoCsv.valueToToon, quoteCell,
      lookupKey, collectAllKeys, rowKeys, insKey, firstIsObj, joinWith, spaces, str,
      List.attach, List.attachWith, List.pmap, List.foldl]
    try decide
  · simp [GoCsv.listOfObjectsToToon, GoCsv.cellValue, GoCsv.valueToToon, quoteCell,
      lookupKey, collectAllKeys, rowKeys, insKey, firstIsObj, joinWith, spaces, str,
      List.attach, List.attachWith, List.pmap, List.foldl]
    try decide

/-- C10 as amended: in the JS compact-CSV encoder the cell access
`obj[k] ?? ''` collapses both a present null and a missing key to the empty
string, so null-valued and absent keys are indistinguishable in its table
rows, even though the scalar encoder renders null as the text `null`; the
Go compact-CSV port instead renders a present null cell as `null`. -/
theorem C10_amended :
    (∀ (fields : List (Str × Value)) (k : Str), lookupKey fields k = some .nullV →
        JsCore.cellEncode (jsGetQQ (.obj fields) k) = []) ∧
    (∀ (fields : List (Str × Value)) (k : Str), lookupKey fields k = none →
        JsCore.cellEncode (jsGetQQ (.obj fields) k) = []) ∧
    (∀ i l : Nat, JsCore.valueToToon .nullV i l = str "null") ∧
    JsCore.listOfObjectsToToon [] [.obj [(str "a", .numV 1)], .obj [(str "a", .nullV)]] 2 0
        = str "[2]\x7ba\x7d:\n  1\n  " := by
  refine ⟨?_, ?_, ?_, ?_⟩
  · intro fields k h
    simp [jsGetQQ, h, JsCore.cellEncode, JsCore.valueToToon, JsCore.needMin, quoteCell]
  · intro fields k h
    simp [jsGetQQ, h, JsCore.cellEncode, JsCore.valueToToon, JsCore.needMin, quoteCell]
  · intro i l
    simp [JsCore.valueToToon]
  · simp [JsCore.listOfObjectsToToon, JsCore.cellEncode, JsCore.valueToToon, JsCore.needMin,
      quoteCell, jsGetQQ, lookupKey, collectAllKeys, rowKeys, insKey, firstIsObj,
      joinWith, spaces, str, List.attach, List.attachWith, List.pmap, List.foldl]
    try decide

/-- C8 counterexample: the claim says a value already wrapped in double
quotes is never wrapped a second time at any cell-quoting site; the
nested-object cell path quotes on comma or colon without checking, so the
value `"x:y\n"` — already quoted by the scalar encoder because of its
newline — is wrapped again, and the emitted sub-cell begins with two
consecutive double quotes. -/
theorem C8_counterexample :
    (JsCore.valueToToon (.strV (str "x:y\n")) 0 0).head? = some '"' ∧
    (JsCore.valueToToon (.strV (str "x:y\n")) 0 0).getLast? = some '"' ∧
    JsCore.cellEncode (.obj [(str "k", .strV (str "x:y\n"))])
        = str "\x7bk:" ++ ('"' :: JsCore.valueToToon (.strV (str "x:y\n")) 0 0 ++ [ '"' ])
          ++ str "\x7d" := by
  have hv : JsCore.valueToToon (.strV (str "x:y\n")) 0 0 = str "\"x:y\\n\"" := by
    simp [JsCore.valueToToon, JsCore.needMin, JsCore.escMin, repChar, expandChars, str]
  refine ⟨by rw [hv]; decide, by rw [hv]; decide, ?_⟩
  rw [hv]
  simp [JsCore.cellEncode, JsCore.valueToToon, JsCore.needMin, JsCore.escMin, repChar,
    expandChars, joinWith, str, List.attach, List.attachWith, List.pmap]
  try decide

theorem quoteCell_fixed (s : Str) (h : s.head? = some '"' ∧ s.getLast? = some '"') :
    quoteCell s = s := by
  rw [quoteCell, if_pos h]

/-- C8 as amended: the scalar cell path of the compact-CSV encoders checks
for existing surrounding quotes, so it never re-wraps and is idempotent;
but the nested-object-cell and nested-inline-table paths quote on their
delimiters without that check (see the counterexample). -/
theorem C8_amended :
    (∀ s : Str, s.head? = some '"' ∧ s.getLast? = some '"' → quoteCell s = s) ∧
    (∀ s : Str, quoteCell (quoteCell s) = quoteCell s) := by
  refine ⟨quoteCell_fixed, ?_⟩
  intro s
  by_cases h1 : s.head? = some '"' ∧ s.getLast? = some '"'
  · rw [quoteCell_fixed s h1, quoteCell_fixed s h1]
  · by_cases h2 : (s.contains ',' || s.contains '\n' || s.contains ':' || s.contains ';') = true
    · have hq : quoteCell s
          = ('"' :: (if s.contains '"' then repChar '"' [ '\\', '"' ] s else s)) ++ [ '"' ] := by
        rw [quoteCell, if_neg h1, if_pos h2]
      rw [hq]
      apply quoteCell_fixed
      exact ⟨rfl, List.getLast?_concat _⟩
    · have hq : quoteCell s = s := by
        rw [quoteCell, if_neg h1, if_neg h2]
      rw [hq, hq]

theorem repChar_length (c : Char) (r : Str) (hr : 1 ≤ r.length) :
    ∀ s : Str, s.length ≤ (repChar c r s).length := by
  intro s
  induction s with
  | nil => simp [repChar, expandChars]
  | cons a rest ih =>
    show rest.length + 1 ≤ ((if a = c then r else [a]) ++ repChar c r rest).length
    by_cases ha : a = c
    · rw [if_pos ha]
      simp only [List.length_append]
      omega
    · rw [if_neg ha]
      simp only [List.length_append, List.length_cons, List.length_nil]
      omega

theorem escTop_length (s : Str) : s.length ≤ (JsCore.escTop s).length := by
  unfold JsCore.escTop
  calc s.length
      ≤ (repChar '\\' [ '\\', '\\' ] s).length := repChar_length _ _ (by decide) s
    _ ≤ (repChar '"' [ '\\', '"' ] (repChar '\\' [ '\\', '\\' ] s)).length :=
        repChar_length _ _ (by decide) _
    _ ≤ _ := repChar_length _ _ (by decide) _

theorem needTop_of_noctl {s : Str}
    (h : s.any (fun c => c == '\n' || c == '\t' || c == '\r') = false) :
    JsCore.needTop s = s.any (fun c => c == ':' || c == '|' || c == '"') := by
  induction s with
  | nil => rfl
  | cons c rest ih =>
    simp only [List.any_cons, Bool.or_eq_false_iff] at h
    obtain ⟨⟨⟨hn, ht⟩, _⟩, hrest⟩ := h
    unfold JsCore.needTop at ih ⊢
    simp only [List.any_cons]
    rw [ih hrest]
    rw [hn, ht]
    simp

/-- C1 as amended: the scalar encoder `valueToToon` used at container call
sites does follow the minimal policy — a string without newline, tab or
carriage return is emitted bare — but the policy is not applied at every
call site: the top-level entry point `toToon` additionally quotes on colon,
pipe and double quote, so such a control-character-free string survives
`toToon` unchanged exactly when it contains none of those three characters
either. -/
theorem C1_amended (s : Str) (i l ind : Nat)
    (hctl : s.any (fun c => c == '\n' || c == '\t' || c == '\r') = false) :
    JsCore.valueToToon (.strV s) i l = s ∧
    (JsCore.toToon (.strV s) ind = s ↔
      s.any (fun c => c == ':' || c == '|' || c == '"') = false) := by
  have hmin : JsCore.needMin s = false := hctl
  have htop := needTop_of_noctl hctl
  constructor
  · rw [JsCore.valueToToon]
    rw [hmin]
    rfl
  · by_cases hsp : s.any (fun c => c == ':' || c == '|' || c == '"') = false
    · have : JsCore.needTop s = false := by rw [htop, hsp]
      rw [JsCore.toToon, this]
      simp [hsp]
    · have hquoted : JsCore.toToon (.strV s) ind = '"' :: JsCore.escTop s ++ [ '"' ] := by
        have : JsCore.needTop s = true := by
          rw [htop]
          exact Bool.eq_true_of_ne_false hsp
        rw [JsCore.toToon, this]
        simp
      constructor
      · intro heq
        exfalso
        rw [hquoted] at heq
        have hlen := congrArg List.length heq
        simp only [List.length_cons, List.length_append, List.length_nil] at hlen
        have := escTop_length s
        omega
      · intro hfalse
        exact absurd hfalse hsp

theorem C1_amended_witness :
    JsCore.valueToToon (.strV (str "x|y")) 0 0 = str "x|y" ∧
    (JsCore.toToon (.strV (str "x|y")) 2 = str "x|y" ↔
      (str "x|y").any (fun c => c == ':' || c == '|' || c == '"') = false) :=
  C1_amended (str "x|y") 0 0 2 (by decide)

theorem foldl_insKey_eq (ks : List Str) : ∀ acc : List Str,
    ks.foldl insKey acc = acc ++ specFirstSeen (ks.filter (fun k => decide (k ∉ acc))) := by
  induction ks with
  | nil =>
    intro acc
    simp [specFirstSeen]
  | cons k rest ih =>
    intro acc
    rw [List.foldl_cons]
    by_cases hk : k ∈ acc
    · rw [show insKey acc k = acc from by simp [insKey, hk]]
      rw [ih acc]
      congr 2
      simp [List.filter_cons, hk]
    · rw [show insKey acc k = acc ++ [k] from by simp [insKey, hk]]
      rw [ih (acc ++ [k])]
      have hf : rest.filter (fun x => decide (x ∉ acc ++ [k]))
          = (rest.filter (fun x => decide (x ∉ acc))).filter (fun x => decide (x ≠ k)) := by
        rw [List.filter_filter]
        apply List.filter_congr
        intro x _
        simp only [List.mem_append, List.mem_singleton, decide_not, Bool.not_eq_true',
          decide_eq_false_iff_not, not_or]
        by_cases hxa : x ∈ acc
        · simp [hxa]
        · by_cases hxk : x = k
          · simp [hxa, hxk]
          · simp [hxa, hxk]
      have hcons : (k :: rest).filter (fun x => decide (x ∉ acc))
          = k :: rest.filter (fun x => decide (x ∉ acc)) := by
        simp [List.filter_cons, hk]
      rw [hcons, specFirstSeen, hf]
      simp

theorem collectAllKeys_eq_specFirstSeen (data : List Value) :
    collectAllKeys data = specFirstSeen ((data.map rowKeys).flatten) := by
  have hfold : ∀ (l : List Value) (acc : List Str),
      l.foldl (fun a row => (rowKeys row).foldl insKey a) acc
        = ((l.map rowKeys).flatten).foldl insKey acc := by
    intro l
    induction l with
    | nil => intro acc; simp
    | cons r rest ih =>
      intro acc
      simp only [List.foldl_cons, List.map_cons, List.flatten_cons, List.foldl_append]
      exact ih _
  have hfilt : ∀ ks : List Str, ks.filter (fun k => decide (k ∉ ([] : List Str))) = ks := by
    intro ks
    induction ks with
    | nil => rfl
    | cons a b ihb => simp [List.filter_cons, ihb]
  unfold collectAllKeys
  rw [hfold data []]
  rw [foldl_insKey_eq]
  rw [hfilt]
  simp

/-- C3: the column set of a tabular rendering is the union of the keys of
all elements, collected in first-seen order across the elements, and a key
missing from a row renders as the empty cell: `collectAllKeys` (from the
source) equals the spec's first-seen union for every sequence, and the
spec's example renders with columns name, age, city, an empty age cell for
Bob and an empty city cell for Alice. -/
theorem C3_tabular_column_union :
    (∀ data : List Value,
        collectAllKeys data = specFirstSeen ((data.map rowKeys).flatten)) ∧
    JsCore.toToon (.arr [.obj [(str "name", .strV (str "Alice")), (str "age", .numV 30)],
        .obj [(str "name", .strV (str "Bob")), (str "city", .strV (str "NYC"))]]) 2
      = str "[2]\x7bname,age,city\x7d:\n  Alice,30,\n  Bob,,NYC" := by
  refine ⟨collectAllKeys_eq_specFirstSeen, ?_⟩
  simp [JsCore.toToon, JsCore.listToToon, JsCore.listOfObjectsToToon, JsCore.cellEncode,
    JsCore.valueToToon, JsCore.needMin, quoteCell, jsGetQQ, lookupKey, collectAllKeys,
    rowKeys, insKey, firstIsObj, joinWith, spaces, str, List.attach, List.attachWith,
    List.pmap, List.foldl]
  try decide

/-- C6 as amended: the JS encoder preserves key insertion order — for a
non-empty mapping of simple values the output is exactly the `key: value`
lines in stored (insertion) order — while the Go port emits keys in its
realized map-iteration order, which need not be the insertion order (see
the counterexample). -/
theorem C6_amended (fields : List (Str × Value)) (indent : Nat)
    (hne : fields ≠ [])
    (hsimple : ∀ p ∈ fields, simpleValue p.2 = true) :
    JsCore.dictToToon fields indent 0
      = joinWith [ '\n' ]
          (fields.map (fun p => p.1 ++ str ": " ++ JsCore.valueToToon p.2 indent 1)) := by
  have hlines : ∀ (fs : List (Str × Value)), (∀ p ∈ fs, simpleValue p.2 = true) →
      JsCore.dictLines fs indent 0
        = fs.map (fun p => p.1 ++ str ": " ++ JsCore.valueToToon p.2 indent 1) := by
    intro fs
    induction fs with
    | nil =>
      intro _
      simp [JsCore.dictLines]
    | cons p rest ih =>
      intro hs
      obtain ⟨k, v⟩ := p
      have hv := hs (k, v) (List.mem_cons_self _ _)
      have hrest : ∀ q ∈ rest, simpleValue q.2 = true :=
        fun q hq => hs q (List.mem_cons_of_mem _ hq)
      cases v with
      | arr items =>
        cases items with
        | nil => simp [JsCore.dictLines, ih hrest, spaces]
        | cons a b => simp [simpleValue] at hv
      | obj f =>
        cases f with
        | nil => simp [JsCore.dictLines, ih hrest, spaces]
        | cons a b => simp [simpleValue] at hv
      | nullV => simp [JsCore.dictLines, ih hrest, spaces]
      | boolV b => simp [JsCore.dictLines, ih hrest, spaces]
      | numV n => simp [JsCore.dictLines, ih hrest, spaces]
      | strV s => simp [JsCore.dictLines, ih hrest, spaces]
  rw [JsCore.dictToToon]
  rw [if_neg (by simpa using hne)]
  rw [hlines fields hsimple]

theorem C6_amended_witness :
    JsCore.dictToToon [(str "b", .numV 1), (str "a", .numV 2), (str "c", .numV 3)] 2 0
      = str "b: 1\na: 2\nc: 3" := by
  have h := C6_amended [(str "b", .numV 1), (str "a", .numV 2), (str "c", .numV 3)] 2
    (List.cons_ne_nil _ _) (by decide)
  rw [h]
  simp [JsCore.valueToToon, joinWith, str]
  try decide

/-! Auxiliary facts about `okStr` used by C9. -/

theorem okStr_append_right {a t : Str} (htne : t ≠ []) (ht : okStr t) : okStr (a ++ t) := by
  rw [okStr, List.getLast?_append_of_ne_nil _ htne]
  exact ht

theorem okStr_append {a b : Str} (ha : okStr a) (hb : okStr b) : okStr (a ++ b) := by
  rcases eq_or_ne b [] with rfl | hbne
  · simpa using ha
  · exact okStr_append_right hbne hb

theorem okStr_concat {a : Str} {c : Char} (h : c ≠ '\n') : okStr (a ++ [c]) := by
  rw [okStr, List.getLast?_concat]
  simp [h]

theorem okStr_cons_of_ne_nil {c : Char} {t : Str} (htne : t ≠ []) (ht : okStr t) :
    okStr (c :: t) := by
  show okStr ([c] ++ t)
  exact okStr_append_right htne ht

theorem okStr_of_not_mem {s : Str} (h : '\n' ∉ s) : okStr s := by
  intro hcon
  exact h (List.mem_of_mem_getLast? (Option.mem_def.mpr hcon))

theorem okStr_of_needMin_false {s : Str} (h : JsCore.needMin s = false) : okStr s := by
  apply okStr_of_not_mem
  intro hmem
  rw [JsCore.needMin, List.any_eq_false] at h
  have := h '\n' hmem
  simp at this

theorem okStr_of_needTop_false {s : Str} (h : JsCore.needTop s = false) : okStr s := by
  apply okStr_of_not_mem
  intro hmem
  rw [JsCore.needTop, List.any_eq_false] at h
  have := h '\n' hmem
  simp at this

theorem quoteCell_ok {s : Str} (h : okStr s) : okStr (quoteCell s) := by
  rw [quoteCell]
  split
  · exact h
  · split
    · exact okStr_concat (by decide)
    · exact h

theorem joinSep_ok {sep : Str} (hsep : okStr sep) :
    ∀ {ls : List Str}, (∀ s ∈ ls, okStr s) → okStr (joinWith sep ls) := by
  intro ls
  induction ls with
  | nil => intro _; simp [joinWith, okStr]
  | cons s rest ih =>
    intro h
    cases rest with
    | nil => simpa [joinWith] using h s (by simp)
    | cons s2 r =>
      have heq : joinWith sep (s :: s2 :: r) = s ++ sep ++ joinWith sep (s2 :: r) := rfl
      rw [heq]
      exact okStr_append (okStr_append (h s (by simp)) hsep)
        (ih (fun q hq => h q (List.mem_cons_of_mem _ hq)))

theorem joinNl_ne_nil_ok :
    ∀ {ls : List Str}, (∀ s ∈ ls, s ≠ [] ∧ okStr s) → ls ≠ [] →
      joinWith [ '\n' ] ls ≠ [] ∧ okStr (joinWith [ '\n' ] ls) := by
  intro ls
  induction ls with
  | nil => intro _ hne; exact absurd rfl hne
  | cons s rest ih =>
    intro h _
    cases rest with
    | nil =>
      have heq : joinWith [ '\n' ] [s] = s := rfl
      rw [heq]
      exact h s (by simp)
    | cons s2 r =>
      have heq : joinWith [ '\n' ] (s :: s2 :: r)
          = s ++ [ '\n' ] ++ joinWith [ '\n' ] (s2 :: r) := rfl
      rw [heq]
      have hrec := ih (fun q hq => h q (List.mem_cons_of_mem _ hq)) (by simp)
      refine ⟨?_, okStr_append_right hrec.1 hrec.2⟩
      intro hcontra
      have := congrArg List.length hcontra
      simp at this

theorem digitChar_ne_newline (m : Nat) : Nat.digitChar m ≠ '\n' := by
  by_cases h : m < 16
  · interval_cases m <;> decide
  · rw [Nat.digitChar]
    rw [if_neg (by omega : ¬ m = 0), if_neg (by omega : ¬ m = 1), if_neg (by omega : ¬ m = 2), if_neg (by omega : ¬ m = 3), if_neg (by omega : ¬ m = 4), if_neg (by omega : ¬ m = 5), if_neg (by omega : ¬ m = 6), if_neg (by omega : ¬ m = 7), if_neg (by omega : ¬ m = 8), if_neg (by omega : ¬ m = 9), if_neg (by omega : ¬ m = 10), if_neg (by omega : ¬ m = 11), if_neg (by omega : ¬ m = 12), if_neg (by omega : ¬ m = 13), if_neg (by omega : ¬ m = 14), if_neg (by omega : ¬ m = 15)]
    decide

theorem toDigitsCore_chars (b : Nat) :
    ∀ (fuel n : Nat) (ds : List Char), (∀ c ∈ ds, c ≠ '\n') →
      ∀ c ∈ Nat.toDigitsCore b fuel n ds, c ≠ '\n' := by
  intro fuel
  induction fuel with
  | zero =>
    intro n ds hds
    simpa [Nat.toDigitsCore] using hds
  | succ fu ih =>
    intro n ds hds c hc
    rw [Nat.toDigitsCore] at hc
    split at hc
    · rcases List.mem_cons.mp hc with rfl | h2
      · exact digitChar_ne_newline _
      · exact hds c h2
    · refine ih (n / b) _ ?_ c hc
      intro c2 hc2
      rcases List.mem_cons.mp hc2 with rfl | h2
      · exact digitChar_ne_newline _
      · exact hds _ h2

theorem toDigitsCore_length (b : Nat) :
    ∀ (fuel n : Nat) (ds : List Char),
      ds.length ≤ (Nat.toDigitsCore b fuel n ds).length := by
  intro fuel
  induction fuel with
  | zero => intro n ds; simp [Nat.toDigitsCore]
  | succ fu ih =>
    intro n ds
    rw [Nat.toDigitsCore]
    split
    · simp
    · calc ds.length ≤ (Nat.digitChar (n % b) :: ds).length := by simp
        _ ≤ _ := ih (n / b) _

theorem toDigitsCore_ne_nil {b fuel n : Nat} (ds : List Char) (hf : fuel ≠ 0) :
    Nat.toDigitsCore b fuel n ds ≠ [] := by
  cases fuel with
  | zero => exact absurd rfl hf
  | succ fu =>
    rw [Nat.toDigitsCore]
    split
    · simp
    · intro hcontra
      have := toDigitsCore_length b fu (n / b) (Nat.digitChar (n % b) :: ds)
      rw [hcontra] at this
      simp at this

theorem natRepr_ok (m : Nat) : (Nat.repr m).data ≠ [] ∧ okStr (Nat.repr m).data := by
  have hdata : (Nat.repr m).data = Nat.toDigits 10 m := rfl
  rw [hdata]
  constructor
  · unfold Nat.toDigits
    exact toDigitsCore_ne_nil [] (by omega)
  · apply okStr_of_not_mem
    intro hmem
    unfold Nat.toDigits at hmem
    exact toDigitsCore_chars 10 (m + 1) m [] (by simp) '\n' hmem rfl

theorem intStr_ok (n : Int) : str (toString n) ≠ [] ∧ okStr (str (toString n)) := by
  cases n with
  | ofNat m =>
    have h : toString (Int.ofNat m) = Nat.repr m := rfl
    rw [str, h]
    exact natRepr_ok m
  | negSucc m =>
    have h : toString (Int.negSucc m) = "-" ++ Nat.repr (m + 1) := rfl
    rw [str, h]
    have hd : ("-" ++ Nat.repr (m + 1)).data = '-' :: (Nat.repr (m + 1)).data := rfl
    rw [hd]
    have hr := natRepr_ok (m + 1)
    exact ⟨by simp, okStr_cons_of_ne_nil hr.1 hr.2⟩

theorem dictLines_ne_nil (k : Str) (v : Value) (rest : List (Str × Value)) (i l : Nat) :
    JsCore.dictLines ((k, v) :: rest) i l ≠ [] := by
  cases v with
  | arr items =>
    cases items with
    | nil => simp [JsCore.dictLines]
    | cons a as =>
      by_cases hfo : firstIsObj (a :: as)
      · simp [JsCore.dictLines, hfo]
      · simp [JsCore.dictLines, hfo]
  | obj fs =>
    cases fs with
    | nil => simp [JsCore.dictLines]
    | cons a as => simp [JsCore.dictLines]
  | nullV => simp [JsCore.dictLines]
  | boolV b => simp [JsCore.dictLines]
  | numV m => simp [JsCore.dictLines]
  | strV s => simp [JsCore.dictLines]

theorem listItems_ne_nil (x : Value) (rest : List Value) (i l : Nat) :
    JsCore.listItems (x :: rest) i l ≠ [] := by
  simp [JsCore.listItems]

theorem anchor_ok {a t : Str} (htne : t ≠ []) (htok : okStr t) :
    (a ++ t) ≠ [] ∧ okStr (a ++ t) :=
  ⟨List.append_ne_nil_of_right_ne_nil a htne, okStr_append_right htne htok⟩

theorem line_ok {a t v : Str} (htne : t ≠ []) (htok : okStr t) (hv : okStr v) :
    (a ++ t ++ v) ≠ [] ∧ okStr (a ++ t ++ v) :=
  ⟨List.append_ne_nil_of_left_ne_nil (List.append_ne_nil_of_right_ne_nil a htne) v,
   okStr_append (okStr_append_right htne htok) hv⟩

theorem row_ok {t : Str} (hok : okStr t) :
    (str "  " ++ t) ≠ [] ∧ okStr (str "  " ++ t) :=
  ⟨List.append_ne_nil_of_left_ne_nil (by decide) t, okStr_append (by decide) hok⟩

theorem encOk : ∀ n : Nat,
    (∀ (v : Value) (i l : Nat), 8 * sizeOf v + 2 ≤ n → okStr (JsCore.valueToToon v i l)) ∧
    (∀ (f : List (Str × Value)) (i l : Nat), 8 * sizeOf f + 6 ≤ n →
        JsCore.dictToToon f i l ≠ [] ∧ okStr (JsCore.dictToToon f i l)) ∧
    (∀ (f : List (Str × Value)) (i l : Nat), 8 * sizeOf f + 5 ≤ n →
        ∀ s ∈ JsCore.dictLines f i l, s ≠ [] ∧ okStr s) ∧
    (∀ (d : List Value) (i l : Nat), 8 * sizeOf d + 6 ≤ n →
        JsCore.listToToon d i l ≠ [] ∧ okStr (JsCore.listToToon d i l)) ∧
    (∀ (d : List Value) (i l : Nat), 8 * sizeOf d + 3 ≤ n →
        ∀ s ∈ JsCore.listItems d i l, s ≠ [] ∧ okStr s) ∧
    (∀ (k : Str) (d : List Value) (i l : Nat), 8 * sizeOf d + 4 ≤ n →
        JsCore.listOfObjectsToToon k d i l ≠ [] ∧
          okStr (JsCore.listOfObjectsToToon k d i l)) ∧
    (∀ v : Value, 8 * sizeOf v + 7 ≤ n → okStr (JsCore.cellEncode v)) := by
  intro n
  induction n using Nat.strong_induction_on with
  | _ n IH =>
  refine ⟨?_, ?_, ?_, ?_, ?_, ?_, ?_⟩
  -- valueToToon
  · intro v i l hm
    have hn1 : n - 1 < n := by have := value_sizeOf_pos v; omega
    obtain ⟨IHval, IHdict, IHdlines, IHlist, IHlitems, IHloot, IHcell⟩ := IH (n - 1) hn1
    cases v with
    | nullV => rw [JsCore.valueToToon]; decide
    | boolV b => rw [JsCore.valueToToon]; cases b <;> decide
    | numV m => rw [JsCore.valueToToon]; exact (intStr_ok m).2
    | strV s =>
      rw [JsCore.valueToToon]
      by_cases hmn : JsCore.needMin s = true
      · rw [if_pos hmn]
        exact okStr_concat (by decide)
      · rw [if_neg hmn]
        exact okStr_of_needMin_false (by simpa using hmn)
    | arr items =>
      rw [JsCore.valueToToon]
      have hrec := IHlist items i l (by first | (simp at hm ⊢; omega) | (simp at hm; omega) | omega)
      exact okStr_cons_of_ne_nil hrec.1 hrec.2
    | obj fields =>
      rw [JsCore.valueToToon]
      have hrec := IHdict fields i l (by first | (simp at hm ⊢; omega) | (simp at hm; omega) | omega)
      exact okStr_cons_of_ne_nil hrec.1 hrec.2
  -- dictToToon
  · intro f i l hm
    have hn1 : n - 1 < n := by have := list_sizeOf_pos f; omega
    obtain ⟨IHval, IHdict, IHdlines, IHlist, IHlitems, IHloot, IHcell⟩ := IH (n - 1) hn1
    rw [JsCore.dictToToon]
    by_cases h0 : f.length = 0
    · rw [if_pos h0]
      exact ⟨by decide, by decide⟩
    · rw [if_neg h0]
      apply joinNl_ne_nil_ok
      · intro s hs
        exact IHdlines f i l (by omega) s hs
      · cases f with
        | nil => simp at h0
        | cons p rest =>
          obtain ⟨k, v⟩ := p
          exact dictLines_ne_nil k v rest i l
  -- dictLines
  · intro f i l hm
    cases f with
    | nil =>
      intro s hs
      rw [JsCore.dictLines] at hs
      simp at hs
    | cons p rest =>
      obtain ⟨k, v⟩ := p
      intro s hs
      have hn1 : n - 1 < n := by have := list_sizeOf_pos rest; omega
      obtain ⟨IHval, IHdict, IHdlines, IHlist, IHlitems, IHloot, IHcell⟩ := IH (n - 1) hn1
      cases v with
      | nullV =>
        simp only [JsCore.dictLines, List.singleton_append] at hs
        rcases List.mem_cons.mp hs with rfl | hmem
        · exact line_ok (by decide) (by decide) (IHval _ i (l + 1) (by first | (simp at hm ⊢; omega) | (simp at hm; omega) | omega))
        · exact IHdlines rest i l (by first | (simp at hm ⊢; omega) | (simp at hm; omega) | omega) s hmem
      | boolV b =>
        simp only [JsCore.dictLines, List.singleton_append] at hs
        rcases List.mem_cons.mp hs with rfl | hmem
        · exact line_ok (by decide) (by decide) (IHval _ i (l + 1) (by first | (simp at hm ⊢; omega) | (simp at hm; omega) | omega))
        · exact IHdlines rest i l (by first | (simp at hm ⊢; omega) | (simp at hm; omega) | omega) s hmem
      | numV m =>
        simp only [JsCore.dictLines, List.singleton_append] at hs
        rcases List.mem_cons.mp hs with rfl | hmem
        · exact line_ok (by decide) (by decide) (IHval _ i (l + 1) (by first | (simp at hm ⊢; omega) | (simp at hm; omega) | omega))
        · exact IHdlines rest i l (by first | (simp at hm ⊢; omega) | (simp at hm; omega) | omega) s hmem
      | strV sv =>
        simp only [JsCore.dictLines, List.singleton_append] at hs
        rcases List.mem_cons.mp hs with rfl | hmem
        · exact line_ok (by decide) (by decide) (IHval _ i (l + 1) (by first | (simp at hm ⊢; omega) | (simp at hm; omega) | omega))
        · exact IHdlines rest i l (by first | (simp at hm ⊢; omega) | (simp at hm; omega) | omega) s hmem
      | arr items =>
        cases items with
        | nil =>
          simp only [JsCore.dictLines, List.singleton_append] at hs
          rcases List.mem_cons.mp hs with rfl | hmem
          · exact line_ok (by decide) (by decide) (IHval _ i (l + 1) (by first | (simp at hm ⊢; omega) | (simp at hm; omega) | omega))
          · exact IHdlines rest i l (by first | (simp at hm ⊢; omega) | (simp at hm; omega) | omega) s hmem
        | cons a as =>
          by_cases hfo : firstIsObj (a :: as) = true
          · simp only [JsCore.dictLines, hfo, if_true, List.singleton_append] at hs
            rcases List.mem_cons.mp hs with rfl | hmem
            · exact IHloot k (a :: as) i l (by first | (simp at hm ⊢; omega) | (simp at hm; omega) | omega)
            · exact IHdlines rest i l (by first | (simp at hm ⊢; omega) | (simp at hm; omega) | omega) s hmem
          · simp only [JsCore.dictLines, hfo, if_false, Bool.false_eq_true,
              List.cons_append, List.singleton_append] at hs
            rcases List.mem_cons.mp hs with rfl | hs2
            · exact anchor_ok (by decide) (by decide)
            · rcases List.mem_cons.mp hs2 with rfl | hmem
              · exact IHlist (a :: as) i (l + 1) (by first | (simp at hm ⊢; omega) | (simp at hm; omega) | omega)
              · exact IHdlines rest i l (by first | (simp at hm ⊢; omega) | (simp at hm; omega) | omega) s hmem
      | obj fs =>
        cases fs with
        | nil =>
          simp only [JsCore.dictLines, List.singleton_append] at hs
          rcases List.mem_cons.mp hs with rfl | hmem
          · exact line_ok (by decide) (by decide) (IHval _ i (l + 1) (by first | (simp at hm ⊢; omega) | (simp at hm; omega) | omega))
          · exact IHdlines rest i l (by first | (simp at hm ⊢; omega) | (simp at hm; omega) | omega) s hmem
        | cons a as =>
          simp only [JsCore.dictLines, List.cons_append, List.singleton_append] at hs
          rcases List.mem_cons.mp hs with rfl | hs2
          · exact anchor_ok (by decide) (by decide)
          · rcases List.mem_cons.mp hs2 with rfl | hmem
            · exact IHdict (a :: as) i (l + 1) (by first | (simp at hm ⊢; omega) | (simp at hm; omega) | omega)
            · exact IHdlines rest i l (by first | (simp at hm ⊢; omega) | (simp at hm; omega) | omega) s hmem
  -- listToToon
  · intro d i l hm
    have hn1 : n - 1 < n := by have := list_sizeOf_pos d; omega
    obtain ⟨IHval, IHdict, IHdlines, IHlist, IHlitems, IHloot, IHcell⟩ := IH (n - 1) hn1
    rw [JsCore.listToToon]
    by_cases h0 : d.length = 0
    · rw [if_pos h0]
      exact ⟨by decide, by decide⟩
    · rw [if_neg h0]
      by_cases hfo : firstIsObj d = true
      · rw [if_pos hfo]
        exact IHloot [] d i l (by omega)
      · rw [if_neg hfo]
        apply joinNl_ne_nil_ok
        · intro s hs
          exact IHlitems d i l (by omega) s hs
        · cases d with
          | nil => simp at h0
          | cons x rest => exact listItems_ne_nil x rest i l
  -- listItems
  · intro d i l hm
    cases d with
    | nil =>
      intro s hs
      rw [JsCore.listItems] at hs
      simp at hs
    | cons x rest =>
      intro s hs
      have hn1 : n - 1 < n := by have := list_sizeOf_pos rest; omega
      obtain ⟨IHval, IHdict, IHdlines, IHlist, IHlitems, IHloot, IHcell⟩ := IH (n - 1) hn1
      rw [JsCore.listItems] at hs
      rcases List.mem_cons.mp hs with rfl | hmem
      · exact line_ok (by decide) (by decide) (IHval x i l (by first | (simp at hm ⊢; omega) | (simp at hm; omega) | omega))
      · exact IHlitems rest i l (by first | (simp at hm ⊢; omega) | (simp at hm; omega) | omega) s hmem
  -- listOfObjectsToToon
  · intro k d i l hm
    have hn1 : n - 1 < n := by have := list_sizeOf_pos d; omega
    obtain ⟨IHval, IHdict, IHdlines, IHlist, IHlitems, IHloot, IHcell⟩ := IH (n - 1) hn1
    rw [JsCore.listOfObjectsToToon]
    by_cases h0 : d.length = 0
    · rw [if_pos h0]
      exact ⟨by decide, by decide⟩
    · rw [if_neg h0]
      by_cases hfo : firstIsObj d = true
      · rw [if_pos hfo]
        dsimp only
        by_cases hak : (collectAllKeys d).length = 0
        · rw [if_pos hak]
          exact ⟨by decide, by decide⟩
        · rw [if_neg hak]
          apply joinNl_ne_nil_ok
          · intro s hs
            rcases List.mem_cons.mp hs with rfl | hrow
            · exact anchor_ok (by decide) (by decide)
            · rw [List.mem_map] at hrow
              obtain ⟨x, hx, rfl⟩ := hrow
              apply row_ok
              apply joinSep_ok (by decide)
              intro c hc
              rw [List.mem_map] at hc
              obtain ⟨kk, hkk, rfl⟩ := hc
              apply IHcell
              have hb := jsGetQQ_sizeOf x.1 kk
              have hx2 := sizeOf_mem x.2
              omega
          · simp
      · rw [if_neg hfo]
        apply joinNl_ne_nil_ok
        · intro s hs
          exact IHlitems d i l (by omega) s hs
        · cases d with
          | nil => simp at h0
          | cons x rest => exact listItems_ne_nil x rest i l
  -- cellEncode
  · intro v hm
    have hn1 : n - 1 < n := by have := value_sizeOf_pos v; omega
    obtain ⟨IHval, IHdict, IHdlines, IHlist, IHlitems, IHloot, IHcell⟩ := IH (n - 1) hn1
    cases v with
    | nullV =>
      simp only [JsCore.cellEncode]
      exact quoteCell_ok (IHval _ 0 0 (by first | (simp at hm ⊢; omega) | (simp at hm; omega) | omega))
    | boolV b =>
      simp only [JsCore.cellEncode]
      exact quoteCell_ok (IHval _ 0 0 (by first | (simp at hm ⊢; omega) | (simp at hm; omega) | omega))
    | numV m =>
      simp only [JsCore.cellEncode]
      exact quoteCell_ok (IHval _ 0 0 (by first | (simp at hm ⊢; omega) | (simp at hm; omega) | omega))
    | strV sv =>
      simp only [JsCore.cellEncode]
      exact quoteCell_ok (IHval _ 0 0 (by first | (simp at hm ⊢; omega) | (simp at hm; omega) | omega))
    | obj nfields =>
      rw [JsCore.cellEncode]
      dsimp only
      exact (anchor_ok (by decide) (by decide)).2
    | arr items =>
      rw [JsCore.cellEncode]
      by_cases hfo : firstIsObj items = true
      · rw [if_pos hfo]
        dsimp only
        apply okStr_append
        · exact (anchor_ok (by decide) (by decide)).2
        · apply joinSep_ok (by decide)
          intro r hr
          rw [List.mem_filterMap] at hr
          obtain ⟨x, hx, hfx⟩ := hr
          rcases hxv : x.1 with _ | _ | _ | _ | items2 | nf
          all_goals rw [hxv] at hfx
          all_goals simp only [] at hfx
          iterate 5 exact absurd hfx (by simp)
          · rw [Option.some.injEq] at hfx
            subst hfx
            apply joinSep_ok (by decide)
            intro c hc
            rw [List.mem_map] at hc
            obtain ⟨nk, hnk, rfl⟩ := hc
            split
            · exact okStr_concat (by decide)
            · apply IHval
              have hb := jsGetQQ_sizeOf (Value.obj nf) nk
              have hx2 := sizeOf_mem x.2
              rw [hxv] at hx2
              simp at hm
              omega
      · rw [if_neg hfo]
        exact (anchor_ok (by decide) (by decide)).2

/-- C9: for every value tree the string returned by the encoder — and by
each recursive block encoder (the dictionary, sequence, tabular and scalar
encoders) — never ends with a newline character; lines are joined with a
newline and no trailing terminator is emitted after the final line. -/
theorem C9_no_trailing_newline :
    (∀ (v : Value) (i : Nat), (JsCore.toToon v i).getLast? ≠ some '\n') ∧
    (∀ (f : List (Str × Value)) (i l : Nat),
        (JsCore.dictToToon f i l).getLast? ≠ some '\n') ∧
    (∀ (d : List Value) (i l : Nat), (JsCore.listToToon d i l).getLast? ≠ some '\n') ∧
    (∀ (k : Str) (d : List Value) (i l : Nat),
        (JsCore.listOfObjectsToToon k d i l).getLast? ≠ some '\n') ∧
    (∀ (v : Value) (i l : Nat), (JsCore.valueToToon v i l).getLast? ≠ some '\n') := by
  refine ⟨?_, ?_, ?_, ?_, ?_⟩
  · intro v i
    cases v with
    | nullV => rw [JsCore.toToon]; decide
    | boolV b => rw [JsCore.toToon]; cases b <;> decide
    | numV m => rw [JsCore.toToon]; exact (intStr_ok m).2
    | strV s =>
      rw [JsCore.toToon]
      by_cases hmn : JsCore.needTop s = true
      · rw [if_pos hmn]
        exact okStr_concat (by decide)
      · rw [if_neg hmn]
        exact okStr_of_needTop_false (by simpa using hmn)
    | arr items =>
      rw [JsCore.toToon]
      exact ((encOk (8 * sizeOf items + 6)).2.2.2.1 items i 0 (le_refl _)).2
    | obj fields =>
      rw [JsCore.toToon]
      exact ((encOk (8 * sizeOf fields + 6)).2.1 fields i 0 (le_refl _)).2
  · intro f i l
    exact ((encOk (8 * sizeOf f + 6)).2.1 f i l (le_refl _)).2
  · intro d i l
    exact ((encOk (8 * sizeOf d + 6)).2.2.2.1 d i l (le_refl _)).2
  · intro k d i l
    exact ((encOk (8 * sizeOf d + 4)).2.2.2.2.2.1 k d i l (le_refl _)).2
  · intro v i l
    exact (encOk (8 * sizeOf v + 2)).1 v i l (le_refl _)

theorem C8_amended_witness :
    quoteCell (str "\"a,b\"") = str "\"a,b\"" ∧
    quoteCell (quoteCell (str "p,q")) = quoteCell (str "p,q") :=
  ⟨C8_amended.1 (str "\"a,b\"") (by decide), C8_amended.2 (str "p,q")⟩

theorem C10_amended_witness :
    JsCore.cellEncode (jsGetQQ (.obj [(str "a", .nullV)]) (str "a")) = [] ∧
    JsCore.cellEncode (jsGetQQ (.obj [(str "b", .numV 1)]) (str "a")) = [] :=
  ⟨C10_amended.1 [(str "a", .nullV)] (str "a") rfl,
   C10_amended.2.1 [(str "b", .numV 1)] (str "a") rfl⟩
